import Mathlib

/-!
Shallow embedding of the ostrich-server core (`src/lib.rs`, `src/main.rs`):
the connection registry (`SharedConn`), the authentication gate (`DataBase`),
the peer session multiplexer (`Peer`'s stream implementation), and the
orchestrator's `ListUsr` branch from `process` in `main.rs`.

Rust `HashMap<String, _>` is modelled as an association list with unique keys;
an unbounded mpsc sender (`Tx`) is modelled by its receivability flag together
with the list of commands enqueued so far.  Fallible operations return an
`Except` of the `io::ErrorKind` used at the corresponding `io::Error::new`
call site, paired with the post-state (Rust methods take `&mut self`, and some
paths mutate before erroring).
-/

/-- Modelled from the spec: the `ListUsr` operation tag of the wire `Command`
type lives in the external `ostrich-core` crate (not under `src/`); the spec
says the field is `Add` in responses and unspecified/ignored in requests. -/
inductive ListUsrOperation where
  | Add
  | Unspecified
deriving DecidableEq, Repr

/-- Modelled from the spec: the wire `Command` variant type of the external
`ostrich-core` crate (not under `src/`), as laid out in spec §3 and used by
every match site in `src/lib.rs` and `src/main.rs`. -/
inductive Command where
  | Ok
  | Err (message : String)
  | Usr (username password : String)
  | Msg (sender target text : String)
  | Join (name : String)
  | Leave (name : String)
  | ListUsr (groupName : String) (operation : ListUsrOperation) (username : String)
deriving DecidableEq, Repr

/-- The `io::ErrorKind` values appearing at `io::Error::new` call sites of the
sources (plus `Other` for transport errors whose kind the core never inspects). -/
inductive IoErrorKind where
  | AlreadyExists
  | NotFound
  | InvalidInput
  | PermissionDenied
  | BrokenPipe
  | InvalidData
  | Other
deriving DecidableEq, Repr

/-- Model of `Tx = mpsc::UnboundedSender<Command>`: `closed` is true when the
receiving half was dropped (a `send` then fails), `queue` is the list of
commands successfully enqueued so far, in order. -/
structure Tx where
  closed : Bool
  queue : List Command
deriving DecidableEq, Repr

/-- Association-list model of `HashMap` lookup (`get`/`get_mut`/`contains_key`):
first binding of the key, if any. -/
def lookupA {α : Type} : List (String × α) → String → Option α
  | [], _ => none
  | (k, v) :: rest, key => if k = key then some v else lookupA rest key

/-- Replace the value of an existing binding in place (the effect of mutating
through `get_mut`); a missing key leaves the list unchanged. -/
def updateA {α : Type} : List (String × α) → String → α → List (String × α)
  | [], _, _ => []
  | (k, v) :: rest, key, v2 =>
    if k = key then (k, v2) :: rest else (k, v) :: updateA rest key v2

/-- `HashMap::insert`: replace the existing binding or add a new one. -/
def insertA {α : Type} (m : List (String × α)) (key : String) (v : α) :
    List (String × α) :=
  if (lookupA m key).isSome then updateA m key v else m ++ [(key, v)]

/-- `HashMap::remove`: drop the binding of the key, if present. -/
def eraseA {α : Type} : List (String × α) → String → List (String × α)
  | [], _ => []
  | (k, v) :: rest, key => if k = key then rest else (k, v) :: eraseA rest key

/-- Rust `str::starts_with("#")` as used on the routing paths
(`src/lib.rs:97`, `src/main.rs:170/195/205`): true iff the first character of
the string is `'#'` (the pattern is a single character). -/
def startsWithHash (s : String) : Bool :=
  match s.data with
  | [] => false
  | c :: _ => c = '#'

/-- The registry state of `SharedConn` (`src/lib.rs:19-22`): presence map from
username to that user's queue sender, and the group map from group name to the
ordered member list. -/
structure SharedConn where
  shared_conn : List (String × Tx)
  groups : List (String × List String)
deriving DecidableEq, Repr

/-- `SharedConn::new` (`src/lib.rs:26-28`). -/
def SharedConn.new : SharedConn :=
  { shared_conn := [], groups := [] }

/-- `SharedConn::add` (`src/lib.rs:30-37`): fail with `AlreadyExists` if the
name already has a presence entry, otherwise insert it. -/
def SharedConn.add (s : SharedConn) (name : String) (tx : Tx) :
    Except IoErrorKind Unit × SharedConn :=
  if (lookupA s.shared_conn name).isSome then
    (.error .AlreadyExists, s)
  else
    (.ok (), { s with shared_conn := insertA s.shared_conn name tx })

/-- `SharedConn::remove` (`src/lib.rs:39-45`). -/
def SharedConn.remove (s : SharedConn) (name : String) :
    Except IoErrorKind Unit × SharedConn :=
  match lookupA s.shared_conn name with
  | some _ => (.ok (), { s with shared_conn := eraseA s.shared_conn name })
  | none => (.error .NotFound, s)

/-- The member-delivery loop of `SharedConn::send2group` (`src/lib.rs:136-152`):
walk the member list in order; skip a member whose name equals `sender`;
fail with `NotFound` if a member has no presence entry and with
`PermissionDenied` if its queue send fails, returning immediately with the
deliveries made so far kept. -/
def sendAllTx (conn : List (String × Tx)) :
    List String → String → Command → Except IoErrorKind Unit × List (String × Tx)
  | [], _, _ => (.ok (), conn)
  | name :: rest, sender, command =>
    if name = sender then sendAllTx conn rest sender command
    else
      match lookupA conn name with
      | none => (.error .NotFound, conn)
      | some tx =>
        if tx.closed then (.error .PermissionDenied, conn)
        else
          sendAllTx (updateA conn name { tx with queue := tx.queue ++ [command] })
            rest sender command

/-- `SharedConn::send2group` (`src/lib.rs:119-155`): `InvalidInput` if the
target group does not exist; `PermissionDenied` if `sender` differs from the
target and is not a member; otherwise run the delivery loop. -/
def SharedConn.send2group (s : SharedConn) (sender target : String)
    (command : Command) : Except IoErrorKind Unit × SharedConn :=
  match lookupA s.groups target with
  | none => (.error .InvalidInput, s)
  | some group_users =>
    if target ≠ sender ∧ sender ∉ group_users then
      (.error .PermissionDenied, s)
    else
      let r := sendAllTx s.shared_conn group_users sender command
      (r.fst, { s with shared_conn := r.snd })

/-- `SharedConn::join_group` (`src/lib.rs:47-67`), translated faithfully:
the "already joined" test on line 50 searches the member list for the
**group name** (`*x == group_name.to_string()`), not for `username`. -/
def SharedConn.join_group (s : SharedConn) (group_name username : String) :
    Except IoErrorKind Unit × SharedConn :=
  match lookupA s.groups group_name with
  | some group =>
    if group_name ∈ group then (.ok (), s)
    else
      let s2 : SharedConn :=
        { s with groups := updateA s.groups group_name (group ++ [username]) }
      let notification : Command :=
        .Msg group_name group_name
          ("--- user " ++ username ++ " joined " ++ group_name ++ " ---")
      s2.send2group group_name group_name notification
  | none =>
    (.ok (), { s with groups := insertA s.groups group_name [username] })

/-- `SharedConn::left_group` (`src/lib.rs:69-83`): remove the first occurrence
of `username` from the group, failing with `NotFound` if the group or the
member is absent. -/
def SharedConn.left_group (s : SharedConn) (username group_name : String) :
    Except IoErrorKind Unit × SharedConn :=
  match lookupA s.groups group_name with
  | some group =>
    match group.findIdx? (fun name => name = username) with
    | some index =>
      (.ok (), { s with groups := updateA s.groups group_name (group.eraseIdx index) })
    | none => (.error .NotFound, s)
  | none => (.error .NotFound, s)

/-- `SharedConn::send` (`src/lib.rs:85-117`): only `Msg` commands are sendable;
a `#`-prefixed target delegates to `send2group`; otherwise enqueue to the
direct target's queue, failing `NotFound` when absent and `BrokenPipe` when
the queue is closed. -/
def SharedConn.send (s : SharedConn) (command : Command) :
    Except IoErrorKind Unit × SharedConn :=
  match command with
  | .Msg sender target _ =>
    if startsWithHash target then
      s.send2group sender target command
    else
      match lookupA s.shared_conn target with
      | none => (.error .NotFound, s)
      | some tx =>
        if tx.closed then (.error .BrokenPipe, s)
        else
          let conn2 := updateA s.shared_conn target { tx with queue := tx.queue ++ [command] }
          (.ok (), { s with shared_conn := conn2 })
  | _ => (.error .InvalidInput, s)

/-- A user record of the directory (`src/lib.rs:224-229`); `PartialEq` is
derived in the source, so record comparison is field-wise equality. -/
structure User where
  name : String
  password : String
deriving DecidableEq, Repr

/-- The in-memory user directory (`src/lib.rs:231-233`); loading from disk is
an external concern, the core only reads the list. -/
structure DataBase where
  db : List User
deriving DecidableEq, Repr

/-- `DataBase::name_exists` (`src/lib.rs:274-276`). -/
def DataBase.name_exists (d : DataBase) (name : String) : Bool :=
  d.db.any (fun x => x.name = name)

/-- `DataBase::check_log_in_credentials` (`src/lib.rs:279-308`): non-`Usr`
commands fail `InvalidInput`; otherwise the first directory record with the
given name is compared (whole record, i.e. password too) against the request,
`PermissionDenied` on mismatch; an unmatched name is accepted as-is.  The
source locates the record by `position` and indexes back into `db`; the first
record whose name matches is exactly `find?` of the name predicate. -/
def DataBase.check_log_in_credentials (d : DataBase) (command : Command) :
    Except IoErrorKind String :=
  match command with
  | .Usr username password =>
    let usr : User := { name := username, password := password }
    match d.db.find? (fun x => x.name = usr.name) with
    | some record =>
      if record = usr then .ok username
      else .error .PermissionDenied
    | none => .ok username
  | _ => .error .InvalidInput

/-- Modelled from the spec: `SharedConn::list_group` is called from
`src/main.rs:217` but its definition is absent from `src/lib.rs`; spec §4.3
says it "returns a snapshot of current member names, or fails `NotFound` if
the group does not exist". -/
def SharedConn.list_group (s : SharedConn) (group_name : String) :
    Except IoErrorKind (List String) :=
  match lookupA s.groups group_name with
  | some group => .ok group
  | none => .error .NotFound

/-- Outcome of one `ToSend(ListUsr(..))` event in the orchestrator: the frames
written to this client (in order; `send_command` failures are only logged, so
writes are modelled as succeeding) and whether Registry `list_group` was
consulted. -/
structure ListUsrOutcome where
  frames : List Command
  listGroupCalled : Bool
deriving DecidableEq, Repr

/-- The `Command::ListUsr` arm of `process` (`src/main.rs:203-229`), translated
faithfully: when `gname` does not start with `#` an `Err` frame is sent, but
there is no early return, so control falls through and `list_group` is called
unconditionally; on its success one `ListUsr(gname, Add, member)` frame is
sent per member, on failure nothing further is sent. -/
def process_list_usr (s : SharedConn) (gname : String) : ListUsrOutcome :=
  let errFrames : List Command :=
    if startsWithHash gname then []
    else [.Err ("Trying to list a non group chat: '" ++ gname ++ "'")]
  let rosterFrames : List Command :=
    match s.list_group gname with
    | .ok usrs_list =>
      usrs_list.map (fun set => .ListUsr gname ListUsrOperation.Add set)
    | .error _ => []
  { frames := errFrames ++ rosterFrames, listGroupCalled := true }

/-- One message event of the merged per-connection stream (`src/lib.rs:189-192`). -/
inductive Message where
  | ToSend (command : Command)
  | Received (command : Command)
deriving DecidableEq, Repr

/-- What one `poll_read` of the socket would produce (`src/lib.rs:208-212`).
The frame codec is external (spec §4.1), so a read's payload is modelled by
the command it decodes to, or `none` for a decode failure. -/
inductive SockPoll where
  | readyOk (n : Nat) (frame : Option Command)
  | readyErr
  | pending
deriving DecidableEq, Repr

/-- State of `Peer` as seen by one `poll_next` pull: the pending injected
messages of its queue receiver, and the socket's current readiness. -/
structure PeerModel where
  rx : List Command
  sock : SockPoll
deriving DecidableEq, Repr

instance {ε α : Type} [DecidableEq ε] [DecidableEq α] : DecidableEq (Except ε α) :=
  fun a b =>
    match a, b with
    | .ok x, .ok y => decidable_of_iff (x = y) (by simp)
    | .error x, .error y => decidable_of_iff (x = y) (by simp)
    | .ok _, .error _ => isFalse (by simp)
    | .error _, .ok _ => isFalse (by simp)

/-- Result of one `poll_next` pull: `yielded` is `Poll::Ready(Some(item))`,
`finished` is `Poll::Ready(None)` (end of sequence), `pending` is
`Poll::Pending`. -/
inductive PollNext where
  | yielded (item : Except IoErrorKind Message)
  | finished
  | pending
deriving DecidableEq, Repr

/-- `impl Stream for Peer`, `poll_next` (`src/lib.rs:194-222`): the injected
queue is polled first and a waiting message is yielded as `Received` without
touching the socket; only on an empty queue is the socket polled — a read
error is yielded as an error item, a read of `n > 0` bytes is decoded (decode
failure yields an error item) and yielded as `ToSend`, and a zero-byte read
ends the stream.  Returns the outcome, the remaining injected queue, and
whether the socket was polled. -/
def Peer.poll_next (p : PeerModel) : PollNext × List Command × Bool :=
  match p.rx with
  | v :: rest => (.yielded (.ok (.Received v)), rest, false)
  | [] =>
    match p.sock with
    | .readyErr => (.yielded (.error .Other), [], true)
    | .pending => (.pending, [], true)
    | .readyOk n frame =>
      if n > 0 then
        match frame with
        | some command => (.yielded (.ok (.ToSend command)), [], true)
        | none => (.yielded (.error .InvalidData), [], true)
      else (.finished, [], true)

/-- A member is deliverable: it has a presence entry and its queue's receiving
half is still alive. -/
def healthyIn (conn : List (String × Tx)) (m : String) : Bool :=
  match lookupA conn m with
  | some tx => !tx.closed
  | none => false

/-- Variant discriminator used to state the `Msg`-only contract of `send`. -/
def Command.isMsg : Command → Bool
  | .Msg _ _ _ => true
  | _ => false

/-- Variant discriminator used to state the `Usr`-only contract of the login
credential check. -/
def Command.isUsr : Command → Bool
  | .Usr _ _ => true
  | _ => false

theorem lookupA_updateA {α : Type} (m : List (String × α)) (k : String) (v : α)
    (k' : String) :
    lookupA (updateA m k v) k' =
      if k' = k then (lookupA m k).map (fun _ => v) else lookupA m k' := by
  induction m with
  | nil => simp [updateA, lookupA]
  | cons hd tl ih =>
    obtain ⟨a, b⟩ := hd
    by_cases h1 : a = k <;> by_cases h2 : a = k' <;>
      simp_all [updateA, lookupA] <;> simp_all [eq_comm]

theorem lookupA_eq_none {α : Type} (m : List (String × α)) (k : String) :
    lookupA m k = none ↔ k ∉ m.map Prod.fst := by
  induction m with
  | nil => simp [lookupA]
  | cons hd tl ih =>
    obtain ⟨a, b⟩ := hd
    by_cases h : a = k <;> simp_all [lookupA, eq_comm]

theorem updateA_map_fst {α : Type} (m : List (String × α)) (k : String) (v : α) :
    (updateA m k v).map Prod.fst = m.map Prod.fst := by
  induction m with
  | nil => simp [updateA]
  | cons hd tl ih =>
    obtain ⟨a, b⟩ := hd
    by_cases h : a = k <;> simp_all [updateA]

theorem insertA_keys_nodup {α : Type} (m : List (String × α)) (k : String) (v : α)
    (h : (m.map Prod.fst).Nodup) : ((insertA m k v).map Prod.fst).Nodup := by
  unfold insertA
  by_cases hs : (lookupA m k).isSome
  · simpa [hs, updateA_map_fst] using h
  · have hk : k ∉ m.map Prod.fst := by
      rw [← lookupA_eq_none]
      cases hl : lookupA m k with
      | none => rfl
      | some w => simp [hl] at hs
    simp_all [List.nodup_append]

theorem lookupA_eraseA_self {α : Type} (m : List (String × α)) (k : String)
    (h : (m.map Prod.fst).Nodup) : lookupA (eraseA m k) k = none := by
  induction m with
  | nil => simp [eraseA, lookupA]
  | cons hd tl ih =>
    obtain ⟨a, b⟩ := hd
    simp only [List.map_cons, List.nodup_cons] at h
    by_cases hak : a = k
    · subst hak
      simp only [eraseA, if_pos rfl]
      rw [lookupA_eq_none]
      exact h.1
    · simp only [eraseA, if_neg hak, lookupA]
      exact ih h.2

theorem healthyIn_updateA_open (conn : List (String × Tx)) (name : String)
    (tx2 : Tx) (h2 : tx2.closed = false) (m : String)
    (h : healthyIn conn m = true) :
    healthyIn (updateA conn name tx2) m = true := by
  unfold healthyIn at h ⊢
  rw [lookupA_updateA]
  by_cases hm : m = name
  · subst hm
    cases hl : lookupA conn m with
    | none => rw [hl] at h; simp at h
    | some tx => simp [h2]
  · rw [if_neg hm]; exact h

theorem sendAllTx_ok (sender : String) (cmd : Command) (names : List String) :
    ∀ conn : List (String × Tx),
      names.Nodup →
      (∀ m ∈ names, m ≠ sender → healthyIn conn m = true) →
      (sendAllTx conn names sender cmd).fst = .ok () ∧
      ∀ k, lookupA (sendAllTx conn names sender cmd).snd k =
        if k ∈ names ∧ k ≠ sender then
          (lookupA conn k).map (fun tx => { tx with queue := tx.queue ++ [cmd] })
        else lookupA conn k := by
  induction names with
  | nil =>
    intro conn _ _
    exact ⟨rfl, fun k => by simp [sendAllTx]⟩
  | cons name rest ih =>
    intro conn hnd hh
    have hname_rest : name ∉ rest := (List.nodup_cons.mp hnd).1
    have hnd' : rest.Nodup := (List.nodup_cons.mp hnd).2
    by_cases hs : name = sender
    · subst hs
      have h1 := ih conn hnd' (fun m hm hms => hh m (List.mem_cons_of_mem _ hm) hms)
      have hstep : sendAllTx conn (name :: rest) name cmd =
          sendAllTx conn rest name cmd := by simp [sendAllTx]
      rw [hstep]
      refine ⟨h1.1, fun k => ?_⟩
      rw [h1.2 k]
      by_cases hk : k ∈ rest ∧ k ≠ name
      · rw [if_pos hk, if_pos ⟨List.mem_cons_of_mem _ hk.1, hk.2⟩]
      · rw [if_neg hk, if_neg ?_]
        rintro ⟨hmem, hne⟩
        rcases List.mem_cons.mp hmem with h | h
        · exact hne h
        · exact hk ⟨h, hne⟩
    · have hhn := hh name (List.mem_cons_self _ _) hs
      unfold healthyIn at hhn
      cases hl : lookupA conn name with
      | none => rw [hl] at hhn; simp at hhn
      | some tx =>
        rw [hl] at hhn
        have hclosed : tx.closed = false := by simpa using hhn
        have hstep : sendAllTx conn (name :: rest) sender cmd =
            sendAllTx (updateA conn name { tx with queue := tx.queue ++ [cmd] })
              rest sender cmd := by
          simp [sendAllTx, if_neg hs, hl, hclosed]
        have hlook2 : ∀ k,
            lookupA (updateA conn name { tx with queue := tx.queue ++ [cmd] }) k =
              if k = name then some { tx with queue := tx.queue ++ [cmd] }
              else lookupA conn k := by
          intro k
          rw [lookupA_updateA]
          by_cases hk : k = name
          · rw [if_pos hk, if_pos hk, hl]; rfl
          · rw [if_neg hk, if_neg hk]
        have hrest : ∀ m ∈ rest, m ≠ sender →
            healthyIn (updateA conn name { tx with queue := tx.queue ++ [cmd] }) m
              = true := by
          intro m hm hms
          exact healthyIn_updateA_open _ _ _ (by simpa using hclosed) _
            (hh m (List.mem_cons_of_mem _ hm) hms)
        have h1 := ih _ hnd' hrest
        rw [hstep]
        refine ⟨h1.1, fun k => ?_⟩
        rw [h1.2 k, hlook2 k]
        by_cases hkname : k = name
        · subst hkname
          rw [if_pos rfl, if_neg (fun hc => hname_rest hc.1),
            if_pos ⟨List.mem_cons_self _ _, hs⟩, hl]
          rfl
        · rw [if_neg hkname]
          by_cases hk : k ∈ rest ∧ k ≠ sender
          · rw [if_pos hk, if_pos ⟨List.mem_cons_of_mem _ hk.1, hk.2⟩]
          · rw [if_neg hk, if_neg ?_]
            rintro ⟨hmem, hne⟩
            rcases List.mem_cons.mp hmem with h | h
            · exact hkname h
            · exact hk ⟨h, hne⟩

theorem sendAllTx_append (sender : String) (cmd : Command) (pre : List String) :
    ∀ (rest : List String) (conn : List (String × Tx)),
      (∀ m ∈ pre, m ≠ sender → healthyIn conn m = true) →
      sendAllTx conn (pre ++ rest) sender cmd =
        sendAllTx (sendAllTx conn pre sender cmd).snd rest sender cmd := by
  induction pre with
  | nil => intro rest conn _; simp [sendAllTx]
  | cons name p ih =>
    intro rest conn hh
    by_cases hs : name = sender
    · subst hs
      have hstep1 : sendAllTx conn ((name :: p) ++ rest) name cmd =
          sendAllTx conn (p ++ rest) name cmd := by simp [sendAllTx]
      have hstep2 : sendAllTx conn (name :: p) name cmd =
          sendAllTx conn p name cmd := by simp [sendAllTx]
      rw [hstep1, hstep2, ih rest conn (fun m hm hms => hh m (List.mem_cons_of_mem _ hm) hms)]
    · have hhn := hh name (List.mem_cons_self _ _) hs
      unfold healthyIn at hhn
      cases hl : lookupA conn name with
      | none => rw [hl] at hhn; simp at hhn
      | some tx =>
        rw [hl] at hhn
        have hclosed : tx.closed = false := by simpa using hhn
        have hstep1 : sendAllTx conn ((name :: p) ++ rest) sender cmd =
            sendAllTx (updateA conn name { tx with queue := tx.queue ++ [cmd] })
              (p ++ rest) sender cmd := by
          simp [sendAllTx, if_neg hs, hl, hclosed]
        have hstep2 : sendAllTx conn (name :: p) sender cmd =
            sendAllTx (updateA conn name { tx with queue := tx.queue ++ [cmd] })
              p sender cmd := by
          simp [sendAllTx, if_neg hs, hl, hclosed]
        rw [hstep1, hstep2]
        exact ih rest _ (fun m hm hms =>
          healthyIn_updateA_open _ _ _ (by simpa using hclosed) _
            (hh m (List.mem_cons_of_mem _ hm) hms))

theorem sendAllTx_fail_head (conn : List (String × Tx)) (bad : String)
    (post : List String) (sender : String) (cmd : Command)
    (hbs : bad ≠ sender) (hbad : healthyIn conn bad = false) :
    sendAllTx conn (bad :: post) sender cmd =
      (.error (if (lookupA conn bad).isSome then IoErrorKind.PermissionDenied
               else IoErrorKind.NotFound), conn) := by
  unfold healthyIn at hbad
  cases hl : lookupA conn bad with
  | none => simp [sendAllTx, if_neg hbs, hl]
  | some tx =>
    rw [hl] at hbad
    have hc : tx.closed = true := by simpa using hbad
    simp [sendAllTx, if_neg hbs, hl, hc]

theorem lookupA_append_right {α : Type} (m : List (String × α)) (k : String)
    (v : α) (h : lookupA m k = none) : lookupA (m ++ [(k, v)]) k = some v := by
  induction m with
  | nil => simp [lookupA]
  | cons hd tl ih =>
    obtain ⟨a, b⟩ := hd
    by_cases hak : a = k
    · simp [lookupA, hak] at h
    · simp only [lookupA, if_neg hak] at h
      simpa [lookupA, if_neg hak] using ih h

/-- C4: `check_log_in_credentials` accepts an unknown name as-is (the database
is taken immutably, so no record can be created), accepts a known name exactly
when the stored password equals the given one, rejects a known name with a
different password with `PermissionDenied`, and rejects every non-`Usr`
command with `InvalidInput`. -/
theorem check_log_in_credentials_spec (d : DataBase) (name password : String)
    (c : Command) :
    (d.name_exists name = false →
      d.check_log_in_credentials (.Usr name password) = .ok name) ∧
    (∀ record, d.db.find? (fun x => x.name = name) = some record →
      (record.password = password →
        d.check_log_in_credentials (.Usr name password) = .ok name) ∧
      (record.password ≠ password →
        d.check_log_in_credentials (.Usr name password) =
          .error .PermissionDenied)) ∧
    (Command.isUsr c = false →
      d.check_log_in_credentials c = .error .InvalidInput) := by
  refine ⟨?_, ?_, ?_⟩
  · intro h
    simp only [DataBase.name_exists, List.any_eq_false] at h
    have hfind : d.db.find? (fun x => x.name = name) = none := by
      rw [List.find?_eq_none]
      intro x hx
      simpa using h x hx
    simp [DataBase.check_log_in_credentials, hfind]
  · intro record hrec
    have hname : record.name = name := by
      have := List.find?_some hrec
      simpa using this
    constructor
    · intro hpw
      have : record = { name := name, password := password } := by
        cases record; simp_all
      simp [DataBase.check_log_in_credentials, hrec, this]
    · intro hpw
      have : record ≠ { name := name, password := password } := by
        intro he; exact hpw (by rw [he])
      simp [DataBase.check_log_in_credentials, hrec, this]
  · intro h
    cases c <;> simp_all [Command.isUsr, DataBase.check_log_in_credentials]

theorem check_log_in_credentials_spec_witness :
    (DataBase.mk [⟨"u", "pw"⟩]).check_log_in_credentials (.Usr "v" "zz") =
      .ok "v" ∧
    (DataBase.mk [⟨"u", "pw"⟩]).check_log_in_credentials (.Usr "u" "pw") =
      .ok "u" ∧
    (DataBase.mk [⟨"u", "pw"⟩]).check_log_in_credentials (.Usr "u" "x") =
      .error .PermissionDenied ∧
    (DataBase.mk [⟨"u", "pw"⟩]).check_log_in_credentials .Ok =
      .error .InvalidInput :=
  ⟨(check_log_in_credentials_spec (DataBase.mk [⟨"u", "pw"⟩]) "v" "zz" .Ok).1
      (by decide),
   ((check_log_in_credentials_spec (DataBase.mk [⟨"u", "pw"⟩]) "u" "pw" .Ok).2.1
      ⟨"u", "pw"⟩ (by decide)).1 (by decide),
   ((check_log_in_credentials_spec (DataBase.mk [⟨"u", "pw"⟩]) "u" "x" .Ok).2.1
      ⟨"u", "pw"⟩ (by decide)).2 (by decide),
   (check_log_in_credentials_spec (DataBase.mk [⟨"u", "pw"⟩]) "u" "pw" .Ok).2.2
      (by decide)⟩

/-- C7: `send` rejects every non-`Msg` command with `InvalidInput` and leaves
the registry untouched; a direct (non-`#`) target with no presence entry
fails `NotFound` with the registry untouched; a present direct target whose
queue is closed fails `BrokenPipe` with the registry untouched. -/
theorem send_error_contract (s : SharedConn) (c : Command)
    (sender target text : String) :
    (Command.isMsg c = false → s.send c = (.error .InvalidInput, s)) ∧
    (startsWithHash target = false → lookupA s.shared_conn target = none →
      s.send (.Msg sender target text) = (.error .NotFound, s)) ∧
    (∀ tx, startsWithHash target = false →
      lookupA s.shared_conn target = some tx → tx.closed = true →
      s.send (.Msg sender target text) = (.error .BrokenPipe, s)) := by
  refine ⟨?_, ?_, ?_⟩
  · intro h
    cases c <;> simp_all [Command.isMsg, SharedConn.send]
  · intro h1 h2
    simp [SharedConn.send, h1, h2]
  · intro tx h1 h2 h3
    simp [SharedConn.send, h1, h2, h3]

theorem send_error_contract_witness :
    (SharedConn.mk [("b", ⟨true, []⟩)] []).send .Ok =
      (.error .InvalidInput, SharedConn.mk [("b", ⟨true, []⟩)] []) ∧
    (SharedConn.mk [("b", ⟨true, []⟩)] []).send (.Msg "a" "c" "hi") =
      (.error .NotFound, SharedConn.mk [("b", ⟨true, []⟩)] []) ∧
    (SharedConn.mk [("b", ⟨true, []⟩)] []).send (.Msg "a" "b" "hi") =
      (.error .BrokenPipe, SharedConn.mk [("b", ⟨true, []⟩)] []) :=
  ⟨(send_error_contract (SharedConn.mk [("b", ⟨true, []⟩)] []) .Ok "a" "c" "hi").1
      (by decide),
   (send_error_contract (SharedConn.mk [("b", ⟨true, []⟩)] []) .Ok "a" "c" "hi").2.1
      (by decide) (by decide),
   (send_error_contract (SharedConn.mk [("b", ⟨true, []⟩)] []) .Ok "a" "b" "hi").2.2
      ⟨true, []⟩ (by decide) (by decide) (by decide)⟩

/-- C8: `add` fails with the already-logged-in error (`AlreadyExists`) exactly
when a presence entry for the name exists, otherwise inserts the entry;
presence keys stay duplicate-free; and after a successful `remove` of the
name a subsequent `add` of the same name succeeds again. -/
theorem add_presence_unique (s : SharedConn) (name : String) (tx : Tx) :
    ((s.add name tx).fst = .error .AlreadyExists ↔
      (lookupA s.shared_conn name).isSome = true) ∧
    ((lookupA s.shared_conn name).isSome = false →
      s.add name tx =
        (.ok (), { s with shared_conn := insertA s.shared_conn name tx }) ∧
      lookupA (s.add name tx).snd.shared_conn name = some tx) ∧
    ((s.shared_conn.map Prod.fst).Nodup →
      ((s.add name tx).snd.shared_conn.map Prod.fst).Nodup) ∧
    ((s.shared_conn.map Prod.fst).Nodup → (s.remove name).fst = .ok () →
      ((s.remove name).snd.add name tx).fst = .ok ()) := by
  refine ⟨?_, ?_, ?_, ?_⟩
  · by_cases h : (lookupA s.shared_conn name).isSome <;>
      simp [SharedConn.add, h]
  · intro h
    have hnone : lookupA s.shared_conn name = none := by
      cases hl : lookupA s.shared_conn name with
      | none => rfl
      | some w => simp [hl] at h
    refine ⟨by simp [SharedConn.add, h], ?_⟩
    have hsnd : (s.add name tx).snd =
        { s with shared_conn := insertA s.shared_conn name tx } := by
      simp [SharedConn.add, h]
    rw [hsnd]
    simpa [insertA, h] using lookupA_append_right s.shared_conn name tx hnone
  · intro hnd
    by_cases h : (lookupA s.shared_conn name).isSome
    · simpa [SharedConn.add, h] using hnd
    · simpa [SharedConn.add, h] using insertA_keys_nodup s.shared_conn name tx hnd
  · intro hnd hok
    cases hl : lookupA s.shared_conn name with
    | none => simp [SharedConn.remove, hl] at hok
    | some w =>
      have hsnd : (s.remove name).snd =
          { s with shared_conn := eraseA s.shared_conn name } := by
        simp [SharedConn.remove, hl]
      rw [hsnd]
      simp [SharedConn.add, lookupA_eraseA_self s.shared_conn name hnd]

theorem add_presence_unique_witness :
    (((SharedConn.mk [("a", ⟨false, []⟩)] []).add "a" ⟨false, []⟩).fst =
        .error .AlreadyExists ↔
      (lookupA [("a", Tx.mk false [])] "a").isSome = true) ∧
    ((((SharedConn.mk [("a", ⟨false, []⟩)] []).remove "a").snd.add "a"
        ⟨false, []⟩).fst = .ok ()) :=
  ⟨(add_presence_unique (SharedConn.mk [("a", ⟨false, []⟩)] []) "a" ⟨false, []⟩).1,
   (add_presence_unique (SharedConn.mk [("a", ⟨false, []⟩)] []) "a" ⟨false, []⟩).2.2.2
      (by decide) (by decide)⟩

/-- C9: one pull of the peer multiplexer yields a waiting injected message as
`Received` without polling the socket; only with an empty queue is the socket
polled, where a non-empty read decodes and yields `ToSend`, a zero-byte read
ends the stream without error, and a read error yields an error item. -/
theorem poll_next_spec (p : PeerModel) :
    (∀ c rest, p.rx = c :: rest →
      Peer.poll_next p = (.yielded (.ok (.Received c)), rest, false)) ∧
    (∀ n c, p.rx = [] → p.sock = .readyOk n (some c) → 0 < n →
      Peer.poll_next p = (.yielded (.ok (.ToSend c)), [], true)) ∧
    (∀ frame, p.rx = [] → p.sock = .readyOk 0 frame →
      Peer.poll_next p = (.finished, [], true)) ∧
    (p.rx = [] → p.sock = .readyErr →
      Peer.poll_next p = (.yielded (.error .Other), [], true)) := by
  obtain ⟨rx, sock⟩ := p
  refine ⟨?_, ?_, ?_, ?_⟩
  · intro c rest h
    simp only at h
    subst h
    simp [Peer.poll_next]
  · intro n c h1 h2
    simp only at h1 h2
    subst h1; subst h2
    intro hn
    simp [Peer.poll_next, hn]
  · intro frame h1 h2
    simp only at h1 h2
    subst h1; subst h2
    simp [Peer.poll_next]
  · intro h1 h2
    simp only at h1 h2
    subst h1; subst h2
    simp [Peer.poll_next]

theorem poll_next_spec_witness :
    Peer.poll_next ⟨[.Ok], .readyOk 16 (some (.Err "e"))⟩ =
      (.yielded (.ok (.Received .Ok)), [], false) ∧
    Peer.poll_next ⟨[], .readyOk 16 (some (.Err "e"))⟩ =
      (.yielded (.ok (.ToSend (.Err "e"))), [], true) ∧
    Peer.poll_next ⟨[], .readyOk 0 none⟩ = (.finished, [], true) ∧
    Peer.poll_next ⟨[], .readyErr⟩ = (.yielded (.error .Other), [], true) :=
  ⟨(poll_next_spec ⟨[.Ok], .readyOk 16 (some (.Err "e"))⟩).1 .Ok [] rfl,
   (poll_next_spec ⟨[], .readyOk 16 (some (.Err "e"))⟩).2.1 16 (.Err "e") rfl rfl
      (by decide),
   (poll_next_spec ⟨[], .readyOk 0 none⟩).2.2.1 none rfl rfl,
   (poll_next_spec ⟨[], .readyErr⟩).2.2.2 rfl rfl⟩

/-- C6: a sender who differs from the (existing) target group and is not a
member fails with `PermissionDenied` and leaves the whole registry state —
in particular every queue — unchanged; when the sender equals the target the
membership test is bypassed and the call proceeds straight to the delivery
loop, whatever the membership. -/
theorem send2group_nonmember (s : SharedConn) (sender target : String)
    (cmd : Command) (members : List String)
    (Hg : lookupA s.groups target = some members)
    (Hne : sender ≠ target) (Hnm : sender ∉ members) :
    s.send2group sender target cmd = (.error .PermissionDenied, s) ∧
    ∀ cmd2, s.send2group target target cmd2 =
      ((sendAllTx s.shared_conn members target cmd2).fst,
       { s with shared_conn := (sendAllTx s.shared_conn members target cmd2).snd }) := by
  constructor
  · simp [SharedConn.send2group, Hg, Ne.symm Hne, Hnm]
  · intro cmd2
    simp [SharedConn.send2group, Hg]

theorem send2group_nonmember_witness :
    (SharedConn.mk [("a", ⟨false, []⟩)] [("#g", ["a"])]).send2group "c" "#g" .Ok =
      (.error .PermissionDenied,
       SharedConn.mk [("a", ⟨false, []⟩)] [("#g", ["a"])]) :=
  (send2group_nonmember (SharedConn.mk [("a", ⟨false, []⟩)] [("#g", ["a"])])
    "c" "#g" .Ok ["a"] (by decide) (by decide) (by decide)).1

/-- C5: with the target group present, the permission guard passed and every
non-sender member's queue present and receivable, `send2group` succeeds,
appends one copy of the command to exactly the queues of the non-sender
members and touches nothing else; and when the member list splits as
`pre ++ bad :: post` with `pre` deliverable and `bad` failing, the call
returns that member's failure immediately, the deliveries to `pre` are kept,
and no member of `post` (nor anything else) is touched. -/
theorem send2group_delivery (s : SharedConn) (sender target : String)
    (cmd : Command) (members : List String)
    (Hg : lookupA s.groups target = some members)
    (Hnd : members.Nodup)
    (Hperm : ¬(target ≠ sender ∧ sender ∉ members)) :
    ((∀ m ∈ members, m ≠ sender → healthyIn s.shared_conn m = true) →
      (s.send2group sender target cmd).fst = .ok () ∧
      (s.send2group sender target cmd).snd.groups = s.groups ∧
      (∀ k tx, lookupA s.shared_conn k = some tx → k ∈ members → k ≠ sender →
        lookupA (s.send2group sender target cmd).snd.shared_conn k =
          some { tx with queue := tx.queue ++ [cmd] }) ∧
      (∀ k, (k ∉ members ∨ k = sender) →
        lookupA (s.send2group sender target cmd).snd.shared_conn k =
          lookupA s.shared_conn k)) ∧
    (∀ pre bad post, members = pre ++ bad :: post →
      bad ≠ sender → healthyIn s.shared_conn bad = false →
      (∀ m ∈ pre, m ≠ sender → healthyIn s.shared_conn m = true) →
      (s.send2group sender target cmd).fst =
        .error (if (lookupA s.shared_conn bad).isSome then
          IoErrorKind.PermissionDenied else IoErrorKind.NotFound) ∧
      (s.send2group sender target cmd).snd.groups = s.groups ∧
      (∀ k tx, lookupA s.shared_conn k = some tx → k ∈ pre → k ≠ sender →
        lookupA (s.send2group sender target cmd).snd.shared_conn k =
          some { tx with queue := tx.queue ++ [cmd] }) ∧
      (∀ k, (k ∉ pre ∨ k = sender) →
        lookupA (s.send2group sender target cmd).snd.shared_conn k =
          lookupA s.shared_conn k)) := by
  have hdef : s.send2group sender target cmd =
      ((sendAllTx s.shared_conn members sender cmd).fst,
       { s with shared_conn := (sendAllTx s.shared_conn members sender cmd).snd }) := by
    simp [SharedConn.send2group, Hg, Hperm]
  constructor
  · intro hh
    obtain ⟨hok, hchar⟩ := sendAllTx_ok sender cmd members s.shared_conn Hnd hh
    refine ⟨by rw [hdef]; exact hok, by rw [hdef], ?_, ?_⟩
    · intro k tx hk hmem hne
      rw [hdef]
      simp only
      rw [hchar k, if_pos ⟨hmem, hne⟩, hk]
      rfl
    · intro k hk
      rw [hdef]
      simp only
      rw [hchar k, if_neg ?_]
      rintro ⟨hmem, hne⟩
      rcases hk with h | h
      · exact h hmem
      · exact hne h
  · intro pre bad post hsplit hbs hbad hpre
    subst hsplit
    have hndpre : pre.Nodup := Hnd.of_append_left
    have hbadpre : bad ∉ pre := by
      rw [List.nodup_append] at Hnd
      exact fun hc => Hnd.2.2 hc (List.mem_cons_self _ _)
    obtain ⟨hok, hchar⟩ := sendAllTx_ok sender cmd pre s.shared_conn hndpre hpre
    have hlookbad :
        lookupA (sendAllTx s.shared_conn pre sender cmd).snd bad =
          lookupA s.shared_conn bad := by
      rw [hchar bad, if_neg (fun hc => hbadpre hc.1)]
    have hbad2 : healthyIn (sendAllTx s.shared_conn pre sender cmd).snd bad
        = false := by
      unfold healthyIn at hbad ⊢
      rw [hlookbad]
      exact hbad
    have hsend : sendAllTx s.shared_conn (pre ++ bad :: post) sender cmd =
        (.error (if (lookupA s.shared_conn bad).isSome then
            IoErrorKind.PermissionDenied else IoErrorKind.NotFound),
         (sendAllTx s.shared_conn pre sender cmd).snd) := by
      rw [sendAllTx_append sender cmd pre (bad :: post) s.shared_conn hpre]
      rw [sendAllTx_fail_head _ bad post sender cmd hbs hbad2, hlookbad]
    refine ⟨by rw [hdef, hsend], by rw [hdef], ?_, ?_⟩
    · intro k tx hk hmem hne
      rw [hdef]
      simp only [hsend]
      rw [hchar k, if_pos ⟨hmem, hne⟩, hk]
      rfl
    · intro k hk
      rw [hdef]
      simp only [hsend]
      rw [hchar k, if_neg ?_]
      rintro ⟨hmem, hne⟩
      rcases hk with h | h
      · exact h hmem
      · exact hne h

theorem send2group_delivery_witness :
    ((SharedConn.mk
        [("A", ⟨false, []⟩), ("B", ⟨false, []⟩), ("C", ⟨false, []⟩)]
        [("#t", ["A", "B", "C"])]).send2group "A" "#t" (.Msg "A" "#t" "hi")).fst
      = .ok () ∧
    lookupA ((SharedConn.mk
        [("A", ⟨false, []⟩), ("B", ⟨false, []⟩), ("C", ⟨false, []⟩)]
        [("#t", ["A", "B", "C"])]).send2group "A" "#t"
          (.Msg "A" "#t" "hi")).snd.shared_conn "B" =
      some ⟨false, [.Msg "A" "#t" "hi"]⟩ ∧
    lookupA ((SharedConn.mk
        [("A", ⟨false, []⟩), ("B", ⟨false, []⟩), ("C", ⟨false, []⟩)]
        [("#t", ["A", "B", "C"])]).send2group "A" "#t"
          (.Msg "A" "#t" "hi")).snd.shared_conn "A" =
      some ⟨false, []⟩ :=
  have h := (send2group_delivery
    (SharedConn.mk [("A", ⟨false, []⟩), ("B", ⟨false, []⟩), ("C", ⟨false, []⟩)]
      [("#t", ["A", "B", "C"])]) "A" "#t" (.Msg "A" "#t" "hi") ["A", "B", "C"]
    (by decide) (by decide) (by decide)).1 (by decide)
  ⟨h.1,
   h.2.2.1 "B" ⟨false, []⟩ (by decide) (by decide) (by decide),
   h.2.2.2 "A" (Or.inr rfl)⟩

/-- C10: joining an existing group appends the member first and only then
broadcasts the join notification with sender = group name; since no
username-shaped member equals the group name, the exclusion test in the
delivery loop skips nobody, so every member — the joiner included — receives
a copy of the joiner's own notification. -/
theorem join_group_notifies_joiner (s : SharedConn) (g u : String)
    (members : List String)
    (Hg : lookupA s.groups g = some members)
    (Hgm : g ∉ members)
    (Hnd : members.Nodup)
    (Hu : u ∉ members)
    (Hug : u ≠ g)
    (Hh : ∀ m ∈ members ++ [u], healthyIn s.shared_conn m = true) :
    (s.join_group g u).fst = .ok () ∧
    lookupA (s.join_group g u).snd.groups g = some (members ++ [u]) ∧
    (∀ m tx, m ∈ members ++ [u] → lookupA s.shared_conn m = some tx →
      lookupA (s.join_group g u).snd.shared_conn m =
        some { tx with queue := tx.queue ++
          [Command.Msg g g ("--- user " ++ u ++ " joined " ++ g ++ " ---")] }) := by
  have hg2 : lookupA (updateA s.groups g (members ++ [u])) g =
      some (members ++ [u]) := by
    rw [lookupA_updateA]; simp [Hg]
  have hjoin : s.join_group g u =
      ((sendAllTx s.shared_conn (members ++ [u]) g
          (.Msg g g ("--- user " ++ u ++ " joined " ++ g ++ " ---"))).fst,
       { s with
          groups := updateA s.groups g (members ++ [u]),
          shared_conn := (sendAllTx s.shared_conn (members ++ [u]) g
            (.Msg g g ("--- user " ++ u ++ " joined " ++ g ++ " ---"))).snd }) := by
    simp [SharedConn.join_group, Hg, Hgm, SharedConn.send2group, hg2]
  have hnd2 : (members ++ [u]).Nodup := by
    simp [List.nodup_append, Hnd, Hu]
  have hmne : ∀ m ∈ members ++ [u], m ≠ g := by
    intro m hm
    rcases List.mem_append.mp hm with h | h
    · exact fun he => Hgm (he ▸ h)
    · rw [List.mem_singleton.mp h]; exact Hug
  obtain ⟨hok, hchar⟩ := sendAllTx_ok g
    (.Msg g g ("--- user " ++ u ++ " joined " ++ g ++ " ---"))
    (members ++ [u]) s.shared_conn hnd2 (fun m hm _ => Hh m hm)
  refine ⟨by rw [hjoin]; exact hok, by rw [hjoin]; exact hg2, ?_⟩
  intro m tx hm htx
  rw [hjoin]
  simp only
  rw [hchar m, if_pos ⟨hm, hmne m hm⟩, htx]
  rfl

theorem join_group_notifies_joiner_witness :
    ((SharedConn.mk [("a", ⟨false, []⟩), ("b", ⟨false, []⟩)]
        [("#g", ["a"])]).join_group "#g" "b").fst = .ok () ∧
    lookupA ((SharedConn.mk [("a", ⟨false, []⟩), ("b", ⟨false, []⟩)]
        [("#g", ["a"])]).join_group "#g" "b").snd.groups "#g" =
      some ["a", "b"] ∧
    lookupA ((SharedConn.mk [("a", ⟨false, []⟩), ("b", ⟨false, []⟩)]
        [("#g", ["a"])]).join_group "#g" "b").snd.shared_conn "b" =
      some ⟨false, [.Msg "#g" "#g" "--- user b joined #g ---"]⟩ :=
  have h := join_group_notifies_joiner
    (SharedConn.mk [("a", ⟨false, []⟩), ("b", ⟨false, []⟩)] [("#g", ["a"])])
    "#g" "b" ["a"] (by decide) (by decide) (by decide) (by decide) (by decide)
    (by decide)
  ⟨h.1, h.2.1,
   h.2.2 "b" ⟨false, []⟩ (by decide) (by decide)⟩

/-- C1: evaluating `join_group` for a user who is **already a member** shows it
is not a no-op: the line-50 test compares members against the group name, so
the user is appended a second time (duplicating the member entry) and the
join notification is broadcast — here the sole member `a` receives it twice.
This contradicts the comment on line 49 ("if the user was already in the
group, ignore request") and the spec's idempotence/no-duplicates invariant. -/
theorem join_group_already_member_not_noop :
    (SharedConn.mk [("a", ⟨false, []⟩)] [("#g", ["a"])]).join_group "#g" "a" =
      (.ok (),
       SharedConn.mk
         [("a", ⟨false, [.Msg "#g" "#g" "--- user a joined #g ---",
                         .Msg "#g" "#g" "--- user a joined #g ---"]⟩)]
         [("#g", ["a", "a"])]) := by decide

/-- C3: evaluating the orchestrator's `ListUsr` branch on a name without the
`#` prefix shows the missing early return: one `Err` frame is sent **and**
`list_group` is still consulted, so a same-named group's roster is also sent. -/
theorem process_list_usr_fall_through :
    process_list_usr (SharedConn.mk [] [("g", ["a"])]) "g" =
      { frames := [.Err "Trying to list a non group chat: 'g'",
                   .ListUsr "g" ListUsrOperation.Add "a"],
        listGroupCalled := true } := by decide

theorem findIdx?_append_self (u : String) (l : List String) (h : u ∉ l) :
    List.findIdx? (fun name => name = u) (l ++ [u]) = some l.length := by
  induction l with
  | nil => simp [List.findIdx?_cons]
  | cons a t ih =>
    have ha : a ≠ u := fun he => h (by rw [he]; exact List.mem_cons_self _ _)
    have ht : u ∉ t := fun hm => h (List.mem_cons_of_mem _ hm)
    rw [List.cons_append, List.findIdx?_cons, if_neg (by simp [ha]),
      List.findIdx?_succ, ih ht]
    rfl

theorem eraseIdx_append_length (u : String) (l : List String) :
    (l ++ [u]).eraseIdx l.length = l := by
  induction l with
  | nil => rfl
  | cons a t ih =>
    simpa using ih

/-- C2 counterexample: starting from `#g = [a, b]` with both queues healthy,
`join_group(#g, a)` (with `a` already a member) followed by
`left_group(a, #g)` yields `[b, a]`, not the prior `[a, b]`: the member order
is not restored. -/
theorem join_then_leave_changes_order :
    lookupA (((SharedConn.mk [("a", ⟨false, []⟩), ("b", ⟨false, []⟩)]
        [("#g", ["a", "b"])]).join_group "#g" "a").snd.left_group
          "a" "#g").snd.groups "#g" = some ["b", "a"] ∧
    lookupA (SharedConn.mk [("a", ⟨false, []⟩), ("b", ⟨false, []⟩)]
        [("#g", ["a", "b"])]).groups "#g" = some ["a", "b"] ∧
    lookupA (((SharedConn.mk [("a", ⟨false, []⟩), ("b", ⟨false, []⟩)]
        [("#g", ["a", "b"])]).join_group "#g" "a").snd.left_group
          "a" "#g").snd.groups "#g" ≠
      lookupA (SharedConn.mk [("a", ⟨false, []⟩), ("b", ⟨false, []⟩)]
        [("#g", ["a", "b"])]).groups "#g" := by decide

/-- C2 (amended): for a group that exists and a username **not already a
member**, `join_group` followed immediately by `left_group` restores the
group's member list, order included, whatever the queues' health. -/
theorem join_then_leave_roundtrip (s : SharedConn) (g u : String)
    (members : List String)
    (Hg : lookupA s.groups g = some members) (Hu : u ∉ members) :
    lookupA ((((s.join_group g u).snd).left_group u g).snd).groups g =
      some members := by
  by_cases hgm : g ∈ members
  · have hj : (s.join_group g u).snd = s := by
      simp [SharedConn.join_group, Hg, hgm]
    rw [hj]
    have hfind : List.findIdx? (fun name => name = u) members = none := by
      rw [List.findIdx?_eq_none_iff]
      intro x hx
      simp only [decide_eq_false_iff_not]
      intro he
      exact Hu (he ▸ hx)
    simp [SharedConn.left_group, Hg, hfind, Hg]
  · have hg2 : lookupA (updateA s.groups g (members ++ [u])) g =
        some (members ++ [u]) := by
      rw [lookupA_updateA]; simp [Hg]
    have hj : (s.join_group g u).snd.groups =
        updateA s.groups g (members ++ [u]) := by
      simp [SharedConn.join_group, Hg, hgm, SharedConn.send2group, hg2]
    have hlook : lookupA (s.join_group g u).snd.groups g =
        some (members ++ [u]) := by rw [hj]; exact hg2
    have hleft : (((s.join_group g u).snd).left_group u g).snd.groups =
        updateA (s.join_group g u).snd.groups g members := by
      simp [SharedConn.left_group, hlook, findIdx?_append_self u members Hu,
        eraseIdx_append_length]
    rw [hleft, lookupA_updateA, if_pos rfl, hlook]
    rfl

theorem join_then_leave_roundtrip_witness :
    ("a" ∉ (["b"] : List String)) ∧
    lookupA (((((SharedConn.mk [] [("#g", ["b"])]).join_group
        "#g" "a").snd).left_group "a" "#g").snd).groups "#g" = some ["b"] :=
  ⟨by decide,
   join_then_leave_roundtrip (SharedConn.mk [] [("#g", ["b"])]) "#g" "a" ["b"]
     (by decide) (by decide)⟩
